import Mathlib

/-!
Verification of the dicomfmt series-discovery and placement engine
(`main.go`).  The Go program is shallowly embedded: pure helper
functions from the Go standard library (`filepath.Clean`, `path.Base`,
`filepath.Dir`) are reimplemented for Unix-style paths; the external
DICOM parser, the unicode printability table, and the filesystem are
abstracted as explicit data (per-file outcomes, a printability
predicate parameter, and an explicit filesystem state, respectively).
-/

set_option maxRecDepth 8192

namespace Dicomfmt

/-- Split a character list on `/`, like `String.splitOn "/"` does on
the underlying characters (kernel-evaluable structural recursion). -/
def splitSlash (cs : List Char) : List (List Char) :=
  cs.foldr (fun c acc =>
    if c = '/' then [] :: acc
    else match acc with
      | h :: t => (c :: h) :: t
      | [] => [[c]]) [[]]

/-- Join character-list components with `/` separators. -/
def joinSlash : List (List Char) → List Char
  | [] => []
  | [x] => x
  | x :: xs => x ++ '/' :: joinSlash xs

/-- Model of Go `path/filepath.Clean` for Unix-style paths: drop empty
and `.` components, resolve `..` against a component stack, and restore
the root prefix. -/
def goClean (p : String) : String :=
  if p = "" then "."
  else
    let cs := p.data
    let rooted : Bool := match cs with | '/' :: _ => true | _ => false
    let comps := (splitSlash cs).filter (fun c => c ≠ [] && c ≠ ['.'])
    let stack := comps.foldl (fun st c =>
      if c = ['.', '.'] then
        match st with
        | [] => if rooted then [] else [['.', '.']]
        | top :: rest => if top = ['.', '.'] then c :: st else rest
      else c :: st) []
    let body := joinSlash stack.reverse
    if rooted then
      if body = [] then "/" else String.mk ('/' :: body)
    else
      if body = [] then "." else String.mk body

/-- Model of Go `path.Base`: the last non-empty path component; `"/"`
when the path is all slashes, `"."` when it is empty. -/
def goBase (p : String) : String :=
  if p = "" then "."
  else
    match ((splitSlash p.data).filter (fun c => c ≠ [])).getLast? with
    | some l => String.mk l
    | none => "/"

/-- Model of Go `path/filepath.Dir`: everything before the final path
component, cleaned; `"."` when the path has no separator. -/
def goDir (p : String) : String :=
  if (splitSlash p.data).length ≤ 1 then "."
  else goClean (String.mk (joinSlash (splitSlash p.data).dropLast ++ ['/']))

/-! ## Classifier (`isTextFile`, main.go lines 47-75)

The byte stream is embedded as the list of runes `bufio.ReadRune`
yields; end of the list models the read error (`io.EOF`) path.  The
unicode printability table (`unicode.IsPrint`) is an external
capability and is taken as a predicate parameter `p`. -/

/-- Loop body of `isTextFile`: check up to `fuel` runes; a read error
(exhausted stream) yields `true`; a rune that is neither printable nor
one of newline, tab, carriage return yields `false`; completing all
iterations yields `true`. -/
def isTextRunes (p : Char → Bool) : Nat → List Char → Bool
  | 0, _ => true
  | _ + 1, [] => true
  | n + 1, c :: rest =>
    if !(p c) && c ≠ '\n' && c ≠ '\t' && c ≠ '\r' then false
    else isTextRunes p n rest

/-- Model of `isTextFile`: `none` models an `os.Open` failure (logged,
returns `false`); otherwise the first 128 decoded runes are checked. -/
def isTextFile (p : Char → Bool) : Option (List Char) → Bool
  | none => false
  | some rs => isTextRunes p 128 rs

/-- Model of `unicode.IsPrint` restricted to the ASCII range, used to
instantiate the printability parameter on concrete inputs. -/
def asciiPrint (c : Char) : Bool := 0x20 ≤ c.toNat && c.toNat ≤ 0x7E

/-! ## Filesystem model and `removeEmpty` (main.go lines 78-88)

A filesystem state is the set (as lists) of existing directory and
regular-file paths, all in cleaned form. -/

/-- Explicit filesystem state: the existing directories and files. -/
structure FS where
  dirs : List String
  files : List String
  deriving DecidableEq

/-- Model of `ioutil.ReadDir`: `none` on error (the path is not an
existing directory), otherwise the immediate children. -/
def readDirFS (fs : FS) (d : String) : Option (List String) :=
  if d ∈ fs.dirs then some ((fs.dirs ++ fs.files).filter (fun e => goDir e = d))
  else none

/-- Model of `removeEmpty`: on a `ReadDir` error return `false`; if the
listing is empty remove the directory and return `true`; otherwise
return `false`. -/
def removeEmpty (fs : FS) (d : String) : FS × Bool :=
  match readDirFS fs d with
  | none => (fs, false)
  | some l =>
    if l = [] then ({ dirs := fs.dirs.filter (fun e => e ≠ d), files := fs.files }, true)
    else (fs, false)

/-- Model of the move-mode cleanup after one successful move (main.go
lines 283-292): remove the file's containing directory if empty, and
only if that removal succeeded, try the directory's parent. -/
def moveCleanup (fs : FS) (file : String) : FS :=
  let srcDir := goDir file
  let r := removeEmpty fs srcDir
  if r.2 then (removeEmpty r.1 (goDir srcDir)).1 else r.1

/-! ## Series Aggregator (`SplitSeries`, main.go lines 93-185)

The Go map `map[SeriesInstanceUID]SeriesFiles` is embedded as an
association list with unique keys kept in insertion order; lookup and
in-place update mirror `series[k]` reads and writes.  The external
DICOM parser is abstracted: each regular file carries the outcome of
the classify/read/parse/lookup pipeline as data. -/

/-- Mirror of the Go struct `SeriesFiles`. -/
structure SeriesFiles where
  PatientName : String
  SeriesDescription : String
  Files : List String
  deriving DecidableEq

/-- The association-list embedding of `map[SeriesInstanceUID]SeriesFiles`. -/
abbrev Table := List (String × SeriesFiles)

/-- Read `series[k]`: first binding of the key, if any. -/
def lookupT : Table → String → Option SeriesFiles
  | [], _ => none
  | (k, v) :: rest, key => if k = key then some v else lookupT rest key

/-- Write `series[k] = nv` for a key already present: replace the first
binding in place. -/
def updateT : Table → String → SeriesFiles → Table
  | [], _, _ => []
  | (k, v) :: rest, key, nv =>
    if k = key then (k, nv) :: rest else (k, v) :: updateT rest key nv

/-- Result of an `data.LookupElement(name).GetValue()` pipeline for the
three fields the aggregator reads; `none` models a lookup error. -/
structure DicomData where
  seriesInstanceUID : Option String
  patientName : Option String
  seriesDescription : Option String
  deriving DecidableEq

/-- Outcome of the classify/read/parse pipeline for one regular file. -/
inductive FileOutcome where
  /-- `isTextFile` returned true: skipped. -/
  | isText
  /-- `ioutil.ReadFile` failed: logged and skipped. -/
  | readError
  /-- `parser.Parse` failed: logged and skipped. -/
  | parseError
  /-- Parse succeeded; the three field lookups behave as recorded. -/
  | parsed (d : DicomData)
  deriving DecidableEq

mutual
/-- One directory entry as seen by `ioutil.ReadDir` during the scan.
`badDir` models a subdirectory on which the recursive `SplitSeries`
call fails (its own `ReadDir` errors): logged and skipped. -/
inductive Entry where
  | file (name : String) (out : FileOutcome)
  | dir (name : String) (entries : EntryList)
  | badDir (name : String)

/-- The entries of one directory, as a bespoke list so that the scan
recursion is mutual-structural. -/
inductive EntryList where
  | nil
  | cons (e : Entry) (rest : EntryList)
end

/-- The non-directory branch of the `SplitSeries` loop (main.go lines
126-181): skip text files, read errors, parse errors, lookup failures
and empty `SeriesInstanceUID`s; append to an existing series; create a
new series only when both `PatientName` and `SeriesDescription` resolve. -/
def processFile (series : Table) (filename : String) : FileOutcome → Table
  | .isText => series
  | .readError => series
  | .parseError => series
  | .parsed d =>
    match d.seriesInstanceUID with
    | none => series
    | some newSeries =>
      if newSeries = "" then series
      else
        match lookupT series newSeries with
        | some oldseries =>
          updateT series newSeries
            { oldseries with Files := oldseries.Files ++ [filename] }
        | none =>
          match d.patientName with
          | none => series
          | some patient =>
            match d.seriesDescription with
            | none => series
            | some sd =>
              series ++ [(newSeries, ⟨patient, sd, [filename]⟩)]

/-- One step of the merge loop (main.go lines 114-125): an existing
series keeps its metadata and gains the incoming files; a new series is
inserted as-is. -/
def mergeStep (series : Table) (kv : String × SeriesFiles) : Table :=
  match lookupT series kv.1 with
  | some oldseries =>
    updateT series kv.1 { oldseries with Files := oldseries.Files ++ kv.2.Files }
  | none => series ++ [kv]

/-- Merge a subdirectory's table into the accumulating one (main.go
lines 114-125). -/
def mergeTable (series subdirFiles : Table) : Table :=
  subdirFiles.foldl mergeStep series

mutual
/-- One iteration of the `SplitSeries` entry loop (main.go lines
104-183): files go through `processFile`, subdirectories are aggregated
recursively and merged, failing subdirectories are skipped.  Filenames
are built as `filepath.Clean(dir + "/" + name)`. -/
def splitEntry (dir : String) (series : Table) : Entry → Table
  | Entry.badDir _ => series
  | Entry.file name out => processFile series (goClean (dir ++ "/" ++ name)) out
  | Entry.dir name es =>
    mergeTable series (splitEntries (goClean (dir ++ "/" ++ name)) [] es)

/-- The `SplitSeries` loop over a directory's entries. -/
def splitEntries (dir : String) (series : Table) : EntryList → Table
  | EntryList.nil => series
  | EntryList.cons e rest => splitEntries dir (splitEntry dir series e) rest
end

/-- Model of `SplitSeries` (main.go lines 93-185): error on an empty
path or a failed `ReadDir` (`contents = none`), otherwise fold the
entries into a table. -/
def SplitSeries (dir : String) (contents : Option EntryList) : Option Table :=
  if dir = "" then none
  else
    match contents with
    | none => none
    | some entries => some (splitEntries dir [] entries)

/-- Convenience constructor for concrete scan inputs. -/
def entryList : List Entry → EntryList
  | [] => EntryList.nil
  | e :: rest => EntryList.cons e (entryList rest)

/-! ## Placement Engine (main.go lines 252-298)

The filesystem effects of the engine (`os.MkdirAll`, the move/copy
`fileAction`, and `removeEmpty`) are abstracted as an environment of
state transformers returning a success flag; the fatal paths
(`log.Fatalln`) terminate the run.  Every externally visible step is
recorded as an event, so "zero relocations / zero output lines" is a
statement about the event trace. -/

/-- Abstract effect environment for the placement engine, over a
filesystem-state type `σ`. -/
structure Env (σ : Type) where
  /-- `os.MkdirAll(dstDir, 0750)`: new state and success flag. -/
  mkdirAll : σ → String → σ × Bool
  /-- The configured `fileAction` (`moveFile` or `copyFile`). -/
  action : σ → String → String → σ × Bool
  /-- `removeEmpty` as observed by the engine: success means the
  directory was removed. -/
  remEmpty : σ → String → σ × Bool

/-- Externally visible placement events. -/
inductive Ev where
  /-- A successful `os.MkdirAll` call for a destination directory. -/
  | mkdir (d : String)
  /-- A successful move/copy of `src` to `dst` (a relocation). -/
  | act (src dst : String)
  /-- A successful directory removal during move-mode cleanup. -/
  | rmdir (d : String)
  /-- One line printed to standard output. -/
  | out (line : String)
  deriving DecidableEq

/-- Result of a placement engine run fragment: the final state with the
accumulated event trace, or `fatal` with the trace up to the failure
(`log.Fatalln` terminates the process there). -/
inductive PRes (σ : Type) where
  | ok (st : σ) (evs : List Ev) (moved : Bool)
  | fatal (evs : List Ev)
  deriving DecidableEq

/-- Move-mode cleanup after one successful move (main.go lines
283-292), against the abstract environment. -/
def cleanupEnv {σ : Type} (env : Env σ) (st : σ) (file : String) : σ × List Ev :=
  let srcDir := goDir file
  let r := env.remEmpty st srcDir
  if r.2 then
    let r2 := env.remEmpty r.1 (goDir srcDir)
    (r2.1, Ev.rmdir srcDir :: (if r2.2 then [Ev.rmdir (goDir srcDir)] else []))
  else (r.1, [])

/-- The per-file loop of the engine (main.go lines 255-293): skip a
file already at its destination; otherwise create the destination
directory and run the action, both fatal on failure; in move mode run
the cleanup.  `moved` accumulates `movedSome`. -/
def placeFiles {σ : Type} (env : Env σ) (mv : Bool) (dstDir : String) :
    σ → List Ev → Bool → List String → PRes σ
  | st, evs, moved, [] => PRes.ok st evs moved
  | st, evs, moved, file :: rest =>
    if goClean (dstDir ++ "/" ++ goBase file) = file then
      placeFiles env mv dstDir st evs moved rest
    else
      let mk := env.mkdirAll st dstDir
      if mk.2 then
        let ac := env.action mk.1 file (goClean (dstDir ++ "/" ++ goBase file))
        if ac.2 then
          let cl := if mv then cleanupEnv env ac.1 file else (ac.1, [])
          placeFiles env mv dstDir cl.1
            (evs ++ Ev.mkdir dstDir :: Ev.act file (goClean (dstDir ++ "/" ++ goBase file)) :: cl.2)
            true rest
        else PRes.fatal (evs ++ [Ev.mkdir dstDir])
      else PRes.fatal evs

/-- One series of the engine loop (main.go lines 252-297): place the
group's files under `dst/PatientName/SeriesDescription`; if any file
was relocated, print the cleaned destination directory. -/
def placeGroup {σ : Type} (env : Env σ) (mv : Bool) (dst : String)
    (st : σ) (evs : List Ev) (files : SeriesFiles) : PRes σ :=
  let dstDir := dst ++ "/" ++ files.PatientName ++ "/" ++ files.SeriesDescription
  match placeFiles env mv dstDir st evs false files.Files with
  | PRes.fatal e => PRes.fatal e
  | PRes.ok st' e moved =>
    PRes.ok st' (if moved then e ++ [Ev.out (goClean dstDir)] else e) moved

/-- The engine loop over the series table (the `range series` loop of
main.go lines 252-298); a fatal failure stops the run. -/
def placeTable {σ : Type} (env : Env σ) (mv : Bool) (dst : String) :
    σ → List Ev → List SeriesFiles → PRes σ
  | st, evs, [] => PRes.ok st evs false
  | st, evs, g :: rest =>
    match placeGroup env mv dst st evs g with
    | PRes.fatal e => PRes.fatal e
    | PRes.ok st' e _ => placeTable env mv dst st' e rest

/-- An environment over a unit state in which every effect succeeds
except directory removal; used to instantiate theorems. -/
def okEnv : Env Unit :=
  ⟨fun s _ => (s, true), fun s _ _ => (s, true), fun s _ => (s, false)⟩

/-- An environment over a unit state in which `os.MkdirAll` always
fails; used to instantiate the fatal-stop theorems. -/
def mkdirFailEnv : Env Unit :=
  ⟨fun s _ => (s, false), fun s _ _ => (s, true), fun s _ => (s, false)⟩

/-! ## Command-line startup (main.go lines 208-231)

Only the `-verbose` boolean flag is registered; `flag.Parse` stops at
the first argument that does not start the flag syntax.  Go slicing
`args[:hi]` panics when `hi` is negative, which is modelled
explicitly. -/

/-- Whether `flag.Parse` consumes the argument as the registered
`verbose` flag. -/
def isVerboseFlag (s : String) : Bool := s = "-verbose" || s = "--verbose"

/-- Model of `flag.Parse` over the arguments after the program name:
consume leading occurrences of the registered flag, stop at the first
non-flag argument; returns the verbose value and `flag.Args()`. -/
def flagParse : List String → Bool × List String
  | [] => (false, [])
  | a :: rest =>
    if isVerboseFlag a then ((flagParse rest).1 || true, (flagParse rest).2)
    else (false, a :: rest)

/-- Model of Go slicing `l[:hi]` with an `Int` bound: `none` models the
runtime panic when the bound is out of range. -/
def goSliceUpto (l : List String) (hi : Int) : Option (List String) :=
  if 0 ≤ hi ∧ hi ≤ (l.length : Int) then some (l.take hi.toNat) else none

/-- Outcome of the startup phase of `main`, before any filesystem
work. -/
inductive StartOutcome where
  /-- Usage printed to standard error, `os.Exit(1)`. -/
  | usage
  /-- Runtime panic (slice bounds out of range), non-zero exit, no
  usage message. -/
  | panicked
  /-- Normal continuation with source directories, destination and
  move-mode flag. -/
  | run (srcDirs : List String) (dst : String) (mv : Bool)
  deriving DecidableEq

/-- Model of main.go lines 208-231: the argument-count guard, flag
parsing, and the `switch len(args)` selecting sources, destination and
mode. -/
def mainStart (osArgs : List String) : StartOutcome :=
  if osArgs.length < 2 then StartOutcome.usage
  else
    let args := (flagParse (osArgs.drop 1)).2
    if args.length = 1 then StartOutcome.run args (args.headD "") true
    else
      match goSliceUpto args ((args.length : Int) - 1) with
      | none => StartOutcome.panicked
      | some srcDirs =>
        match args.getLast? with
        | some dst => StartOutcome.run srcDirs dst false
        | none => StartOutcome.panicked

/-! ## Classifier theorems -/

/-- A character the classifier loop accepts: printable according to `p`
or one of the three whitelisted control characters. -/
def allowedChar (p : Char → Bool) (c : Char) : Prop :=
  p c = true ∨ c = '\n' ∨ c = '\t' ∨ c = '\r'

instance (p : Char → Bool) (c : Char) : Decidable (allowedChar p c) := by
  unfold allowedChar
  infer_instance

theorem isTextRunes_true (p : Char → Bool) :
    ∀ (n : Nat) (rs : List Char),
      (∀ c ∈ rs.take n, allowedChar p c) → isTextRunes p n rs = true
  | 0, _, _ => rfl
  | _ + 1, [], _ => rfl
  | n + 1, c :: rest, h => by
    have hc : allowedChar p c := h c (by simp)
    have hrest : ∀ c' ∈ rest.take n, allowedChar p c' := by
      intro c' hc'
      exact h c' (by simp [List.take_succ_cons, hc'])
    have htail := isTextRunes_true p n rest hrest
    rcases hc with h1 | h1 | h1 | h1 <;> simp [isTextRunes, h1, htail]

/-- C6 counterexample: a file of exactly 128 printable ASCII characters
reaches the cap without disqualification, and `isTextFile` returns
`true` (the file is treated as text and skipped) — the claim states it
returns `false`. -/
theorem c6_cap_counterexample :
    (∀ c ∈ List.replicate 128 'a', asciiPrint c = true) ∧
    isTextFile asciiPrint (some (List.replicate 128 'a')) = true := by
  constructor
  · decide
  · decide

/-- C6 (amended): for every file whose first 128 decoded characters are
all printable or one of newline, tab, carriage return, the classifier
reaches the 128-character cap without disqualification and treats the
file as a text file (`isTextFile` returns `true`, so the file is
skipped). -/
theorem c6_cap_is_text (p : Char → Bool) (rs : List Char)
    (_hcap : 128 ≤ rs.length)
    (h : ∀ c ∈ rs.take 128, allowedChar p c) :
    isTextFile p (some rs) = true :=
  isTextRunes_true p 128 rs h

/-- Witness for C6 (amended) at 128 copies of `'a'`. -/
theorem c6_cap_is_text_witness :
    isTextFile asciiPrint (some (List.replicate 128 'a')) = true :=
  c6_cap_is_text asciiPrint (List.replicate 128 'a') (by decide)
    (by decide)

/-- C7: a file of exactly 127 characters, each accepted by the
printability predicate, hits end-of-stream before the cap and is
classified as text (`isTextFile` returns `true`). -/
theorem c7_eof_boundary (p : Char → Bool) (rs : List Char)
    (_hlen : rs.length = 127)
    (h : ∀ c ∈ rs, p c = true) :
    isTextFile p (some rs) = true :=
  isTextRunes_true p 128 rs (fun c hc => Or.inl (h c (List.take_subset _ _ hc)))

/-- Witness for C7 at 127 copies of `'a'`. -/
theorem c7_eof_boundary_witness :
    isTextFile asciiPrint (some (List.replicate 127 'a')) = true :=
  c7_eof_boundary asciiPrint (List.replicate 127 'a') (by decide) (by decide)

/-! ## Startup theorem -/

/-- C8: with no arguments at all the startup phase prints usage and
exits; but with the `--verbose` flag and no directory argument, `main`
reaches `args[:len(args)-1]` with `len(args) = 0` and panics on slice
bounds instead of printing the usage message — the code diverges from
the claim on flag-only invocations. -/
theorem c8_flag_only_panics :
    mainStart ["dicomfmt"] = StartOutcome.usage ∧
    mainStart ["dicomfmt", "--verbose"] = StartOutcome.panicked := by
  constructor
  · decide
  · decide

/-! ## Cleanup theorems -/

theorem removeEmpty_scope (fs : FS) (d x : String)
    (hx : x ∈ fs.dirs) (hnx : x ∉ (removeEmpty fs d).1.dirs) : x = d := by
  unfold removeEmpty at hnx
  rcases hrd : readDirFS fs d with _ | l
  · rw [hrd] at hnx
    exact absurd hx hnx
  · rw [hrd] at hnx
    by_cases hl : l = []
    · simp only [hl, if_pos rfl] at hnx
      by_contra hne
      exact hnx (List.mem_filter.mpr ⟨hx, by simpa using hne⟩)
    · simp only [if_neg hl] at hnx
      exact absurd hx hnx

/-- C9: `removeEmpty` removes a directory only when listing it succeeds
with zero entries; on a listing error or on any directory with at least
one entry it performs no removal and returns `false`. -/
theorem c9_remove_only_empty :
    (∀ (fs : FS) (d : String), readDirFS fs d = none →
      removeEmpty fs d = (fs, false)) ∧
    (∀ (fs : FS) (d : String) (l : List String), readDirFS fs d = some l →
      l ≠ [] → removeEmpty fs d = (fs, false)) ∧
    (∀ (fs : FS) (d : String), (removeEmpty fs d).1 ≠ fs →
      readDirFS fs d = some []) := by
  refine ⟨?_, ?_, ?_⟩
  · intro fs d h
    unfold removeEmpty
    rw [h]
  · intro fs d l h hl
    unfold removeEmpty
    rw [h]
    simp [hl]
  · intro fs d h
    unfold removeEmpty at h
    rcases hrd : readDirFS fs d with _ | l
    · rw [hrd] at h
      exact absurd rfl h
    · rw [hrd] at h
      by_cases hl : l = []
      · rw [hl]
      · simp only [if_neg hl] at h
        exact absurd rfl h

/-- Witness for C9: a directory still holding one subdirectory is not
removed. -/
theorem c9_remove_only_empty_witness :
    removeEmpty ⟨["root", "root/X"], []⟩ "root" = (⟨["root", "root/X"], []⟩, false) :=
  c9_remove_only_empty.2.1 ⟨["root", "root/X"], []⟩ "root" ["root/X"]
    (by decide) (by decide)

/-- C5: move-mode cleanup only ever removes the moved file's containing
directory and that directory's parent (never anything further up), and
on the layout `root/PatientX/SeriesY/only.dat` it removes
`root/PatientX/SeriesY`, then `root/PatientX`, and leaves `root`. -/
theorem c5_cascading_cleanup :
    (∀ (fs : FS) (file d : String), d ∈ fs.dirs →
      d ∉ (moveCleanup fs file).dirs →
      d = goDir file ∨ d = goDir (goDir file)) ∧
    moveCleanup ⟨["root", "root/PatientX", "root/PatientX/SeriesY"], []⟩
      "root/PatientX/SeriesY/only.dat" = ⟨["root"], []⟩ := by
  constructor
  · intro fs file d hd hnd
    unfold moveCleanup at hnd
    by_cases hr : (removeEmpty fs (goDir file)).2
    · simp only [hr, if_pos rfl] at hnd
      by_cases hmid : d ∈ (removeEmpty fs (goDir file)).1.dirs
      · exact Or.inr (removeEmpty_scope _ _ _ hmid hnd)
      · exact Or.inl (removeEmpty_scope _ _ _ hd hmid)
    · simp only [hr, if_neg] at hnd
      exact Or.inl (removeEmpty_scope _ _ _ hd hnd)
  · decide

/-- Witness for C5: `root/PatientX` disappears only because it is the
parent of the moved file's containing directory. -/
theorem c5_cascading_cleanup_witness :
    "root/PatientX" = goDir "root/PatientX/SeriesY/only.dat" ∨
    "root/PatientX" = goDir (goDir "root/PatientX/SeriesY/only.dat") :=
  c5_cascading_cleanup.1 ⟨["root", "root/PatientX", "root/PatientX/SeriesY"], []⟩
    "root/PatientX/SeriesY/only.dat" "root/PatientX" (by decide) (by decide)

/-! ## Placement engine theorems -/

theorem placeFiles_all_skip {σ : Type} (env : Env σ) (mv : Bool) (dstDir : String) :
    ∀ (files : List String) (st : σ) (evs : List Ev) (moved : Bool),
      (∀ f ∈ files, goClean (dstDir ++ "/" ++ goBase f) = f) →
      placeFiles env mv dstDir st evs moved files = PRes.ok st evs moved
  | [], _, _, _, _ => rfl
  | file :: rest, st, evs, moved, h => by
    have hf : goClean (dstDir ++ "/" ++ goBase file) = file := h file (by simp)
    have hrest := placeFiles_all_skip env mv dstDir rest st evs moved
      (fun f hfm => h f (by simp [hfm]))
    simp only [placeFiles, if_pos hf]
    exact hrest

/-- C1: the placement engine skips every file whose computed cleaned
destination already equals its current path, and on a table in which
every file of every series is already at its canonical place the run
touches nothing: no directory creation, no move or copy, no output
line, and the filesystem state is unchanged. -/
theorem c1_idempotence :
    (∀ (σ : Type) (env : Env σ) (mv : Bool) (dstDir : String) (st : σ)
        (evs : List Ev) (moved : Bool) (file : String) (rest : List String),
      goClean (dstDir ++ "/" ++ goBase file) = file →
      placeFiles env mv dstDir st evs moved (file :: rest) =
        placeFiles env mv dstDir st evs moved rest) ∧
    (∀ (σ : Type) (env : Env σ) (mv : Bool) (dst : String) (st : σ)
        (evs : List Ev) (gs : List SeriesFiles),
      (∀ g ∈ gs, ∀ f ∈ g.Files,
        goClean (dst ++ "/" ++ g.PatientName ++ "/" ++ g.SeriesDescription
          ++ "/" ++ goBase f) = f) →
      placeTable env mv dst st evs gs = PRes.ok st evs false) := by
  constructor
  · intro σ env mv dstDir st evs moved file rest hf
    simp only [placeFiles, if_pos hf]
  · intro σ env mv dst st evs gs
    induction gs generalizing st evs with
    | nil => intro _; rfl
    | cons g rest ih =>
      intro h
      have hg := placeFiles_all_skip env mv
        (dst ++ "/" ++ g.PatientName ++ "/" ++ g.SeriesDescription)
        g.Files st evs false (h g (by simp))
      simp only [placeTable, placeGroup, hg]
      exact ih st evs (fun g' hg' f hf => h g' (by simp [hg']) f hf)

/-- Witness for C1: a single series whose one file already sits at
`out/P/CT/a.dcm`. -/
theorem c1_idempotence_witness :
    placeTable okEnv false "out" () [] [⟨"P", "CT", ["out/P/CT/a.dcm"]⟩] =
      PRes.ok () [] false :=
  c1_idempotence.2 Unit okEnv false "out" () [] [⟨"P", "CT", ["out/P/CT/a.dcm"]⟩]
    (by decide)

theorem placeFiles_fatal_append {σ : Type} (env : Env σ) (mv : Bool) (dstDir : String) :
    ∀ (fs1 fs2 : List String) (st : σ) (evs : List Ev) (moved : Bool) (e : List Ev),
      placeFiles env mv dstDir st evs moved fs1 = PRes.fatal e →
      placeFiles env mv dstDir st evs moved (fs1 ++ fs2) = PRes.fatal e
  | [], _, _, _, _, _, h => by exact absurd h (by simp [placeFiles])
  | file :: rest, fs2, st, evs, moved, e, h => by
    simp only [placeFiles] at h ⊢
    by_cases hf : goClean (dstDir ++ "/" ++ goBase file) = file
    · rw [if_pos hf] at h ⊢
      exact placeFiles_fatal_append env mv dstDir rest fs2 st evs moved e h
    · rw [if_neg hf] at h ⊢
      by_cases hmk : (env.mkdirAll st dstDir).2 = true
      · rw [if_pos hmk] at h ⊢
        by_cases hac : (env.action (env.mkdirAll st dstDir).1 file
            (goClean (dstDir ++ "/" ++ goBase file))).2 = true
        · rw [if_pos hac] at h ⊢
          exact placeFiles_fatal_append env mv dstDir rest fs2 _ _ true e h
        · rw [if_neg hac] at h ⊢
          exact h
      · rw [if_neg hmk] at h ⊢
        exact h

/-- C4: once a destination-directory creation or a move/copy action
fails, the run ends with exactly the events emitted before the failure:
appending further files to the failing series, or further series to the
table, changes nothing — they are never processed and no further output
line appears. -/
theorem c4_fatal_stop :
    (∀ (σ : Type) (env : Env σ) (mv : Bool) (dst : String) (st : σ)
        (evs : List Ev) (gs1 gs2 : List SeriesFiles) (e : List Ev),
      placeTable env mv dst st evs gs1 = PRes.fatal e →
      placeTable env mv dst st evs (gs1 ++ gs2) = PRes.fatal e) ∧
    (∀ (σ : Type) (env : Env σ) (mv : Bool) (dstDir : String) (st : σ)
        (evs : List Ev) (moved : Bool) (fs1 fs2 : List String) (e : List Ev),
      placeFiles env mv dstDir st evs moved fs1 = PRes.fatal e →
      placeFiles env mv dstDir st evs moved (fs1 ++ fs2) = PRes.fatal e) := by
  constructor
  · intro σ env mv dst st evs gs1 gs2 e h
    induction gs1 generalizing st evs with
    | nil => exact absurd h (by simp [placeTable])
    | cons g rest ih =>
      simp only [placeTable] at h ⊢
      rcases hg : placeGroup env mv dst st evs g with ⟨st', e', moved'⟩ | ⟨e'⟩
      · rw [hg] at h
        exact ih _ _ h
      · rw [hg] at h
        exact h
  · intro σ env mv dstDir st evs moved fs1 fs2 e h
    exact placeFiles_fatal_append env mv dstDir fs1 fs2 st evs moved e h

/-- Witness for C4: with a failing `MkdirAll`, a second series appended
after the failing one is never processed. -/
theorem c4_fatal_stop_witness :
    placeTable mkdirFailEnv false "out" () []
      ([⟨"P", "CT", ["src/a.dcm"]⟩] ++ [⟨"Q", "MR", ["src/b.dcm"]⟩]) =
      PRes.fatal [] :=
  c4_fatal_stop.1 Unit mkdirFailEnv false "out" () []
    [⟨"P", "CT", ["src/a.dcm"]⟩] [⟨"Q", "MR", ["src/b.dcm"]⟩] [] (by decide)

/-! ## Table lemmas and merge theorems -/

theorem lookupT_updateT_self :
    ∀ (t : Table) (k : String) (v nv : SeriesFiles),
      lookupT t k = some v → lookupT (updateT t k nv) k = some nv
  | [], _, _, _, h => by simp [lookupT] at h
  | (k', v') :: rest, k, v, nv, h => by
    by_cases hk : k' = k
    · simp [lookupT, updateT, hk]
    · simp only [lookupT, updateT, if_neg hk] at h ⊢
      exact lookupT_updateT_self rest k v nv h

theorem lookupT_updateT_ne :
    ∀ (t : Table) (k k' : String) (nv : SeriesFiles), k' ≠ k →
      lookupT (updateT t k' nv) k = lookupT t k
  | [], _, _, _, _ => rfl
  | (k0, v0) :: rest, k, k', nv, hne => by
    by_cases hk : k0 = k'
    · subst hk
      simp [lookupT, updateT, hne]
    · simp only [updateT, if_neg hk, lookupT]
      by_cases h0 : k0 = k
      · simp [h0]
      · simp only [if_neg h0]
        exact lookupT_updateT_ne rest k k' nv hne

theorem lookupT_append_single_ne :
    ∀ (t : Table) (k k' : String) (v : SeriesFiles), k' ≠ k →
      lookupT (t ++ [(k', v)]) k = lookupT t k
  | [], k, k', v, hne => by simp [lookupT, hne]
  | (k0, v0) :: rest, k, k', v, hne => by
    by_cases h0 : k0 = k
    · simp [lookupT, h0]
    · simp only [List.cons_append, lookupT, if_neg h0]
      exact lookupT_append_single_ne rest k k' v hne

theorem mergeStep_lookup_ne (t : Table) (k : String) (kv : String × SeriesFiles)
    (hne : kv.1 ≠ k) : lookupT (mergeStep t kv) k = lookupT t k := by
  unfold mergeStep
  rcases h : lookupT t kv.1 with _ | old
  · exact lookupT_append_single_ne t k kv.1 kv.2 hne
  · exact lookupT_updateT_ne t k kv.1 _ hne

theorem mergeStep_lookup_self (t : Table) (k : String) (h g : SeriesFiles)
    (hl : lookupT t k = some g) :
    lookupT (mergeStep t (k, h)) k =
      some ⟨g.PatientName, g.SeriesDescription, g.Files ++ h.Files⟩ := by
  unfold mergeStep
  dsimp only
  rw [hl]
  exact lookupT_updateT_self t k g _ hl

theorem foldl_mergeStep_ne :
    ∀ (l : Table) (t : Table) (k : String), k ∉ l.map Prod.fst →
      lookupT (l.foldl mergeStep t) k = lookupT t k
  | [], _, _, _ => rfl
  | kv :: rest, t, k, h => by
    have h1 : kv.1 ≠ k := by
      intro he
      exact h (by simp [he])
    have h2 : k ∉ rest.map Prod.fst := by
      intro he
      exact h (by simp [he])
    rw [List.foldl_cons, foldl_mergeStep_ne rest _ k h2, mergeStep_lookup_ne t k kv h1]

/-- C2: when a subdirectory table is merged into the accumulating table
and a series identifier is present in both, the merged group's files
are the accumulating table's files followed by the subdirectory's, and
the metadata is the accumulating table's (the table being merged
into). -/
theorem c2_merge_correctness (acc sub : Table) (k : String) (g h : SeriesFiles)
    (hacc : lookupT acc k = some g) (hmem : (k, h) ∈ sub)
    (hnd : (sub.map Prod.fst).Nodup) :
    lookupT (mergeTable acc sub) k =
      some ⟨g.PatientName, g.SeriesDescription, g.Files ++ h.Files⟩ := by
  obtain ⟨s1, s2, rfl⟩ := List.append_of_mem hmem
  rw [List.map_append, List.map_cons] at hnd
  have hnd1 : k ∉ s1.map Prod.fst := by
    intro hk
    exact (List.disjoint_of_nodup_append hnd) hk (by simp)
  have hnd2 : k ∉ s2.map Prod.fst := by
    have := (List.nodup_append.mp hnd).2.1
    rw [List.nodup_cons] at this
    exact this.1
  unfold mergeTable
  rw [List.foldl_append, List.foldl_cons]
  rw [foldl_mergeStep_ne s2 _ k hnd2]
  have hs1 : lookupT (s1.foldl mergeStep acc) k = some g :=
    (foldl_mergeStep_ne s1 acc k hnd1).trans hacc
  exact mergeStep_lookup_self _ k h g hs1

/-- Witness for C2 on two singleton tables sharing series `"S1"`. -/
theorem c2_merge_correctness_witness :
    lookupT (mergeTable [("S1", ⟨"P", "D", ["a"]⟩)] [("S1", ⟨"Q", "E", ["b"]⟩)]) "S1" =
      some ⟨"P", "D", ["a", "b"]⟩ :=
  c2_merge_correctness [("S1", ⟨"P", "D", ["a"]⟩)] [("S1", ⟨"Q", "E", ["b"]⟩)]
    "S1" ⟨"P", "D", ["a"]⟩ ⟨"Q", "E", ["b"]⟩ (by decide) (by decide) (by decide)

/-! ## Missing-metadata theorems (C3) -/

/-- C3 counterexample: in a directory whose first file fully populates
series `"S1"`, a second file that yields the same `SeriesInstanceUID`
but no `PatientName` IS added to the existing `SeriesGroup` (the code
appends before looking metadata up), so the claim "never added to any
SeriesGroup" fails. -/
theorem c3_counterexample :
    SplitSeries "d" (some (entryList
      [Entry.file "a" (.parsed ⟨some "S1", some "P", some "CT"⟩),
       Entry.file "b" (.parsed ⟨some "S1", none, some "CT"⟩)])) =
      some [("S1", ⟨"P", "CT", ["d/a", "d/b"]⟩)] ∧
    "d/b" ∈ ["d/a", "d/b"] := by
  constructor
  · decide
  · decide

/-- C3 (amended): a file yielding a `SeriesInstanceUID` but no
`PatientName` never creates a series entry: when its identifier is not
already in the table, the file is skipped and the table is unchanged;
when the identifier is already present, the file is appended to the
existing group without any metadata lookup. -/
theorem c3_no_entry_without_patient :
    (∀ (t : Table) (fn uid : String) (sd : Option String), uid ≠ "" →
      lookupT t uid = none →
      processFile t fn (.parsed ⟨some uid, none, sd⟩) = t) ∧
    (∀ (t : Table) (fn uid : String) (sd : Option String) (g : SeriesFiles),
      uid ≠ "" → lookupT t uid = some g →
      processFile t fn (.parsed ⟨some uid, none, sd⟩) =
        updateT t uid { g with Files := g.Files ++ [fn] }) := by
  constructor
  · intro t fn uid sd hne hl
    simp [processFile, hne, hl]
  · intro t fn uid sd g hne hl
    simp [processFile, hne, hl]

/-- Witness for C3 (amended): an empty table stays empty. -/
theorem c3_no_entry_without_patient_witness :
    processFile [] "d/b" (.parsed ⟨some "S1", none, some "CT"⟩) = [] :=
  c3_no_entry_without_patient.1 [] "d/b" "S1" (some "CT") (by decide) (by decide)

/-! ## No-empty-groups invariant (C10) -/

/-- Every group of the table has at least one file. -/
def NETable (t : Table) : Prop := ∀ kv ∈ t, kv.2.Files ≠ []

theorem lookupT_mem : ∀ (t : Table) (k : String) (v : SeriesFiles),
    lookupT t k = some v → (k, v) ∈ t
  | [], _, _, h => by simp [lookupT] at h
  | (k0, v0) :: rest, k, v, h => by
    by_cases h0 : k0 = k
    · simp only [lookupT, if_pos h0] at h
      subst h0
      simp [← Option.some_inj.mp h]
    · simp only [lookupT, if_neg h0] at h
      exact List.mem_cons_of_mem _ (lookupT_mem rest k v h)

theorem updateT_mem : ∀ (t : Table) (k : String) (nv : SeriesFiles)
    (kv : String × SeriesFiles), kv ∈ updateT t k nv → kv ∈ t ∨ kv.2 = nv
  | [], _, _, _, h => by simp [updateT] at h
  | (k0, v0) :: rest, k, nv, kv, h => by
    by_cases h0 : k0 = k
    · simp only [updateT, if_pos h0] at h
      rcases List.mem_cons.mp h with h1 | h1
      · exact Or.inr (by simp [h1])
      · exact Or.inl (List.mem_cons_of_mem _ h1)
    · simp only [updateT, if_neg h0] at h
      rcases List.mem_cons.mp h with h1 | h1
      · exact Or.inl (by simp [h1])
      · rcases updateT_mem rest k nv kv h1 with h2 | h2
        · exact Or.inl (List.mem_cons_of_mem _ h2)
        · exact Or.inr h2

theorem NETable_updateT (t : Table) (k : String) (nv : SeriesFiles)
    (ht : NETable t) (hnv : nv.Files ≠ []) : NETable (updateT t k nv) := by
  intro kv hkv
  rcases updateT_mem t k nv kv hkv with h | h
  · exact ht kv h
  · rw [h]
    exact hnv

theorem NETable_processFile (t : Table) (fn : String) (out : FileOutcome)
    (ht : NETable t) : NETable (processFile t fn out) := by
  cases out with
  | isText => exact ht
  | readError => exact ht
  | parseError => exact ht
  | parsed d =>
    rcases d with ⟨uid, pat, sd⟩
    cases uid with
    | none => exact ht
    | some u =>
      simp only [processFile]
      by_cases hu : u = ""
      · simp only [if_pos hu]
        exact ht
      · simp only [if_neg hu]
        rcases hl : lookupT t u with _ | old
        · cases pat with
          | none => exact ht
          | some p =>
            cases sd with
            | none => exact ht
            | some s =>
              intro kv hkv
              rcases List.mem_append.mp hkv with h | h
              · exact ht kv h
              · simp only [List.mem_singleton] at h
                rw [h]
                simp
        · refine NETable_updateT t u _ ht ?_
          simp

theorem NETable_mergeStep (t : Table) (kv : String × SeriesFiles)
    (ht : NETable t) (hv : kv.2.Files ≠ []) : NETable (mergeStep t kv) := by
  unfold mergeStep
  rcases hl : lookupT t kv.1 with _ | old
  · intro kv' hkv'
    rcases List.mem_append.mp hkv' with h | h
    · exact ht kv' h
    · simp only [List.mem_singleton] at h
      rw [h]
      exact hv
  · refine NETable_updateT t kv.1 _ ht ?_
    have hold : old.Files ≠ [] := ht (kv.1, old) (lookupT_mem t kv.1 old hl)
    simp [hold]

theorem NETable_mergeTable :
    ∀ (sub t : Table), NETable t → NETable sub → NETable (mergeTable t sub)
  | [], _, ht, _ => ht
  | kv :: rest, t, ht, hsub => by
    have hv : kv.2.Files ≠ [] := hsub kv (by simp)
    have hrest : NETable rest := fun kv' h => hsub kv' (List.mem_cons_of_mem _ h)
    exact NETable_mergeTable rest (mergeStep t kv) (NETable_mergeStep t kv ht hv) hrest

mutual
theorem NETable_splitEntry : ∀ (dir : String) (t : Table), NETable t →
    ∀ (e : Entry), NETable (splitEntry dir t e)
  | _, _, ht, Entry.badDir _ => ht
  | dir, t, ht, Entry.file name out =>
    NETable_processFile t (goClean (dir ++ "/" ++ name)) out ht
  | dir, t, ht, Entry.dir name es =>
    NETable_mergeTable _ t ht
      (NETable_splitEntries (goClean (dir ++ "/" ++ name)) [] (by intro kv h; simp at h) es)

theorem NETable_splitEntries : ∀ (dir : String) (t : Table), NETable t →
    ∀ (es : EntryList), NETable (splitEntries dir t es)
  | _, _, ht, EntryList.nil => ht
  | dir, t, ht, EntryList.cons e rest =>
    NETable_splitEntries dir _ (NETable_splitEntry dir t ht e) rest
end

/-- C10: every table `SplitSeries` returns successfully contains only
groups with at least one file — a new entry is seeded with one file,
and appending or merging only adds files. -/
theorem c10_no_empty_groups (dir : String) (contents : Option EntryList)
    (t : Table) (h : SplitSeries dir contents = some t) :
    ∀ kv ∈ t, kv.2.Files ≠ [] := by
  unfold SplitSeries at h
  by_cases hd : dir = ""
  · rw [if_pos hd] at h
    exact absurd h (by simp)
  · rw [if_neg hd] at h
    cases contents with
    | none => exact absurd h (by simp)
    | some es =>
      simp only [Option.some_inj] at h
      rw [← h]
      exact NETable_splitEntries dir [] (by intro kv hkv; simp at hkv) es

/-- Witness for C10 on a one-file scan. -/
theorem c10_no_empty_groups_witness :
    (("S1", SeriesFiles.mk "P" "CT" ["d/a"]) : String × SeriesFiles).2.Files ≠ [] :=
  c10_no_empty_groups "d"
    (some (entryList [Entry.file "a" (.parsed ⟨some "S1", some "P", some "CT"⟩)]))
    [("S1", ⟨"P", "CT", ["d/a"]⟩)] (by decide)
    ("S1", ⟨"P", "CT", ["d/a"]⟩) (by decide)

end Dicomfmt
